import Mathlib

/-
Shallow embedding of the jtag-taps crate (statemachine.rs, taps.rs,
cable/gpio.rs, cable/mpsse.rs) and proofs about the claims of its
specification.  States, bytes and bit counts are modelled as Nat,
byte buffers as List Nat (each element a byte value), bit streams as
List Bool in the order the bits are clocked on the wire.
-/

namespace Jtag

/-! ## TAP state graph (statemachine.rs, JtagSM::new)

States use the Rust enum discriminants: Reset=0, Idle=1, SelectDR=2,
CaptureDR=3, ShiftDR=4, Exit1DR=5, PauseDR=6, Exit2DR=7, UpdateDR=8,
SelectIR=9, CaptureIR=10, ShiftIR=11, Exit1IR=12, PauseIR=13,
Exit2IR=14, UpdateIR=15.  `edge0 s` / `edge1 s` are `edges[0]` /
`edges[1]` of node `s` as built in `JtagSM::new`. -/

def edge0 : Nat → Nat
  | 0 => 1 | 1 => 1 | 2 => 3 | 3 => 4 | 4 => 4 | 5 => 6 | 6 => 6 | 7 => 4
  | 8 => 1 | 9 => 10 | 10 => 11 | 11 => 11 | 12 => 13 | 13 => 13 | 14 => 11 | 15 => 1
  | _ => 0

def edge1 : Nat → Nat
  | 0 => 0 | 1 => 2 | 2 => 9 | 3 => 5 | 4 => 5 | 5 => 8 | 6 => 7 | 7 => 8
  | 8 => 2 | 9 => 0 | 10 => 12 | 11 => 12 | 12 => 15 | 13 => 14 | 14 => 15 | 15 => 9
  | _ => 0

/-- One TMS clock: a zero TMS value takes `edges[0]`, any other value
`edges[1]` (the cable treats any non-zero TMS entry as high). -/
def tmsStep (s b : Nat) : Nat := if b = 0 then edge0 s else edge1 s

/-- Apply a TMS sequence to the TAP graph. -/
def applyTms (s : Nat) (l : List Nat) : Nat := l.foldl tmsStep s

/-- The `Path` record of `JtagSM::get_path`: accumulated TMS bits and the
state they lead to. -/
structure SPath where
  path : List Nat
  state : Nat

/-- One iteration of the `for p in paths` body of `JtagSM::get_path`:
each path is extended by the 0-edge and then the 1-edge, returning (via
`Except.error`) the first extension that reaches the target, otherwise
the list of all extensions in the order Rust pushes them. -/
def stepPaths (target : Nat) : List SPath → Except (List Nat) (List SPath)
  | [] => .ok []
  | p :: rest =>
    let p1 : SPath := ⟨p.path ++ [0], edge0 p.state⟩
    if p1.state = target then .error p1.path
    else
      let p2 : SPath := ⟨p.path ++ [1], edge1 p.state⟩
      if p2.state = target then .error p2.path
      else
        match stepPaths target rest with
        | .error ans => .error ans
        | .ok l => .ok (p1 :: p2 :: l)

/-- The unbounded `loop` of `JtagSM::get_path`, made total with fuel.
Sixteen rounds are far more than the graph ever needs. -/
def getPathAux (target : Nat) : Nat → List SPath → Option (List Nat)
  | 0, _ => none
  | fuel + 1, paths =>
    match stepPaths target paths with
    | .error ans => some ans
    | .ok next => getPathAux target fuel next

/-- `JtagSM::get_path(state)`: seeds the worklist with the two one-step
paths `[0]` and `[1]` (which are never themselves compared against the
target) and then expands level by level. -/
def getPathSM (s t : Nat) : Option (List Nat) :=
  getPathAux t 16 [⟨[0], edge0 s⟩, ⟨[1], edge1 s⟩]

/-- TMS bits emitted by `JtagSM::change_mode(target)`: nothing when the
recorded state already equals the target, else the `get_path` result. -/
def cmTms (rec t : Nat) : List Nat := if rec = t then [] else (getPathSM rec t).getD []

/-! ## State-machine driver operations (statemachine.rs)

Each public operation is modelled by the TMS bits it causes the cable to
clock (`tmsOfOp`, using the cable contract: a data shift of n bits
clocks n-1 zero-TMS cycles and then either a plain final cycle or, for
`pause_after`, a 1 then a 0) and by the state the driver records
(`recAfter`).  `smRun` starts from `JtagSM::new`, which clocks TMS
[1,1,1,1,1,0] and records Reset. -/

inductive SmOp where
  | modeReset : SmOp
  | changeMode : Nat → SmOp
  | readReg : Bool → Nat → SmOp
  | writeReg : Bool → Nat → Nat → Bool → SmOp
  | readWriteReg : Bool → Nat → Nat → Bool → SmOp

/-- ShiftDR for the data register, ShiftIR for the instruction register. -/
def shiftStateOf (d : Bool) : Nat := if d then 4 else 11

/-- PauseDR for the data register, PauseIR for the instruction register. -/
def pauseStateOf (d : Bool) : Nat := if d then 6 else 13

/-- The state `JtagSM` records after each operation. -/
def recAfter (_rec : Nat) : SmOp → Nat
  | .modeReset => 0
  | .changeMode t => t
  | .readReg d _ => shiftStateOf d
  | .writeReg d _ _ p => if p then pauseStateOf d else shiftStateOf d
  | .readWriteReg d _ _ p => if p then pauseStateOf d else shiftStateOf d

/-- The TMS bits each operation sends to the cable, given the state the
driver currently records.  `writeReg d len bits p` stands for
`write_reg` with a `len`-byte buffer and `bits` valid bits in the last
byte. -/
def tmsOfOp (rec : Nat) : SmOp → List Nat
  | .modeReset => [1, 1, 1, 1, 1, 0]
  | .changeMode t => cmTms rec t
  | .readReg d bits => cmTms rec (shiftStateOf d) ++ List.replicate bits 0
  | .writeReg d len bits p =>
      cmTms rec (shiftStateOf d) ++ List.replicate ((len - 1) * 8 + bits - 1) 0 ++
        (if p then [1, 0] else [0])
  | .readWriteReg d len bits p =>
      cmTms rec (shiftStateOf d) ++ List.replicate ((len - 1) * 8 + bits - 1) 0 ++
        (if p then [1, 0] else [0])

/-- One operation acting on (recorded state, simulated physical state). -/
def smExec (st : Nat × Nat) (op : SmOp) : Nat × Nat :=
  (recAfter st.1 op, applyTms st.2 (tmsOfOp st.1 op))

/-- Run a list of driver operations from construction: `JtagSM::new`
clocks TMS [1,1,1,1,1,0] on the cable (from unknown physical state `s0`)
and records Reset (0). -/
def smRun (s0 : Nat) (ops : List SmOp) : Nat × Nat :=
  ops.foldl smExec (0, applyTms s0 [1, 1, 1, 1, 1, 0])

/-! ## Bit buffers (LSB-first convention of the cable contract) -/

/-- Bit `i` of a byte buffer: bit `i % 8` of byte `i / 8` (bit 0 of byte
0 is the first bit clocked). -/
def bufBit (buf : List Nat) (i : Nat) : Bool := (buf.getD (i / 8) 0).testBit (i % 8)

/-- The TDI bit sequence a contract-abiding cable clocks for
`write_data(data, bits, _)`: the first `(len-1)*8 + bits` bits of the
buffer, LSB-first within each byte. -/
def writeStream (data : List Nat) (bits : Nat) : List Bool :=
  (List.range ((data.length - 1) * 8 + bits)).map (bufBit data)

/-! ## Taps padding (taps.rs) -/

/-- OR a value into the last element of a list (`output[end] |= v`). -/
def setLastOr (v : Nat) : List Nat → List Nat
  | [] => []
  | [a] => [a ||| v]
  | a :: b :: rest => a :: setLastOr v (b :: rest)

/-- `add_ones_to_end(input, this_len, shift)` from taps.rs: OR
`!((1 << (this_len % 8)) - 1)` (as a byte) into the last payload byte,
then append `shift / 8` bytes of 0xff. -/
def addOnesToEnd (input : List Nat) (thisLen shiftN : Nat) : List Nat :=
  setLastOr (255 ^^^ ((1 <<< (thisLen % 8)) - 1)) input ++
    List.replicate (shiftN / 8) 255

/-- TDI bits emitted by `Taps::write_ones(bits)`: `bits / 8` bytes of
0xff with 8 valid bits, then one byte `(1 << (bits % 8)) - 1` with
`bits % 8` valid bits. -/
def writeOnesStream (bits : Nat) : List Bool :=
  (if bits / 8 > 0 then writeStream (List.replicate (bits / 8) 255) 8 else []) ++
    (if bits % 8 > 0 then writeStream [(1 <<< (bits % 8)) - 1] (bits % 8) else [])

/-- TDI bits emitted by `Taps::write_ir(ir)` for a chain with
instruction-register lengths `irlens` and active index `k`: first
`write_ones` of the summed IR lengths after `k`, then one `write_reg` of
`add_ones_to_end(ir, irlen_k, sum of IR lengths before k)` with
`(pad_bits + this_irlen) % 8` (0 mapped to 8) valid bits in the last
byte. -/
def writeIrStream (irlens : List Nat) (k : Nat) (ir : List Nat) : List Bool :=
  writeOnesStream ((irlens.drop (k + 1)).sum) ++
    writeStream (addOnesToEnd ir (irlens.getD k 0) ((irlens.take k).sum))
      (if ((irlens.take k).sum + irlens.getD k 0) % 8 = 0 then 8
       else ((irlens.take k).sum + irlens.getD k 0) % 8)

/-! ## GPIO back-end (cable/gpio.rs) -/

/-- The TDI bit values `Gpio::read_write_data(data, bits, pause)` drives,
in clock order: `bits` is first clamped by `bits.max(1).min(8)`; every
byte contributes bits taken as `(d >> (7 - b)) & 1`, i.e. from bit 7
downward. -/
def gpioTdiBits (data : List Nat) (bits : Nat) (pause : Bool) : List Bool :=
  let b := min (max bits 1) 8
  let _ := pause
  data.dropLast.flatMap (fun d => (List.range 8).map (fun j => d.testBit (7 - j))) ++
    (List.range b).map (fun j => (data.getD (data.length - 1) 0).testBit (7 - j))

/-- `Gpio::read_data(bits)` with TDO sample stream `tdo`: packs sampled
bits LSB-first into `value`, pushes `value` each time the bit index
wraps to 0 (without ever resetting `value`), and unconditionally pushes
`value` once more after the loop. -/
def gpioReadData (tdo : Nat → Bool) (bits : Nat) : List Nat :=
  let st := (List.range bits).foldl
    (fun (st : List Nat × Nat × Nat) i =>
      let value := st.2.1 ||| ((if tdo i then 1 else 0) <<< st.2.2)
      let b := (st.2.2 + 1) % 8
      if b = 0 then (st.1 ++ [value], value, b) else (st.1, value, b))
    ([], 0, 0)
  st.1 ++ [st.2.1]

/-! ## MPSSE back-end (cable/mpsse.rs) -/

/-- TDI bits driven by `Mpsse::write_data(data, bits, pause)`: aborts
(`none`) unless `bits ∈ [1,8]`; otherwise clocks the full bytes
LSB-first, then the low `bits - 1` bits of the last byte, then the bit
at index `bits - 1` via the clock-TMS command (twice when pausing, since
that command clocks two cycles with TDI held at the same level). -/
def mpsseWriteTdi (data : List Nat) (bits : Nat) (pause : Bool) : Option (List Bool) :=
  if bits ≤ 8 ∧ bits ≠ 0 then
    let last := data.getD (data.length - 1) 0
    some (data.dropLast.flatMap (fun d => (List.range 8).map d.testBit) ++
      (List.range (bits - 1)).map last.testBit ++
      [last.testBit (bits - 1)] ++
      (if pause then [last.testBit (bits - 1)] else []))
  else none

/-- A `queued_read_state` entry, exactly the tuple the Rust code pushes:
`(bits, bytes, write-flag, pause-flag)` for `queue_read_write` and
`(bits, bytes, false, false)` for `queue_read`.  `finish_read`
destructures it as `(orig_bits, bytes, pause_after, write)`, silently
swapping the last two fields; `unpackFinish` reproduces that. -/
abbrev MEntry : Type := Nat × Nat × Bool × Bool

def entryBits (e : MEntry) : Nat := e.1

def entryBytes (e : MEntry) : Nat := e.2.1

/-- In-place update of one byte of a buffer (`buf[i] = f(buf[i])`). -/
def setIdx (l : List Nat) (i : Nat) (f : Nat → Nat) : List Nat := l.set i (f (l.getD i 0))

/-- The post-processing `Mpsse::finish_read` applies to the `bytes`
response bytes of the entry at the head of the queue.  Faithful to the
source, including the swapped destructuring: the third tuple field
(pushed as the write flag) is used as `pause_after` and the fourth
(pushed as the pause flag) as `write`. -/
def unpackFinish (e : MEntry) (buf0 : List Nat) : List Nat :=
  let pa := e.2.2.1
  let wr := e.2.2.2
  let buf1 := if pa then buf0.dropLast else buf0
  let len := buf1.length
  if wr then
    let buf2 := setIdx buf1 (len - 1) (fun x => x >>> 7)
    let bits1 := e.1 - 1
    if 1 ≤ bits1 then
      let buf3 := setIdx buf2 (len - 2) (fun x => x >>> (8 - bits1 % 8))
      let lastRecv := (buf3.getD (len - 1) 0) &&& 1
      (setIdx buf3 (len - 2) (fun x => x ||| (lastRecv <<< (bits1 % 8)))).dropLast
    else buf2
  else
    if e.1 % 8 ≠ 0 then setIdx buf1 (len - 1) (fun x => x >>> (8 - e.1 % 8)) else buf1

/-- Concatenated adapter response for a queue of entries, each paired
with the response bytes the adapter produces for its commands. -/
def respFlat : List (MEntry × List Nat) → List Nat
  | [] => []
  | p :: rest => p.2 ++ respFlat rest

/-- Drain a queue with repeated `finish_read` calls (each with the
matching queued bit count, as its assertion requires).  `pending` is
`queued_reads`: when it is empty, `finish_read` transfers the response
bytes of every outstanding entry at once; it then splits off the head
entry's `bytes` bytes and post-processes them. -/
def drainFrom : List (MEntry × List Nat) → List Nat → List (List Nat)
  | [], _ => []
  | p :: rest, pending =>
    let pending1 := if pending.isEmpty then respFlat (p :: rest) else pending
    unpackFinish p.1 (pending1.take (entryBytes p.1)) ::
      drainFrom rest (pending1.drop (entryBytes p.1))

/-- The entry `Mpsse::queue_read_write(data, bits, pause)` pushes, as a
function of the data length: total bit count, then the response byte
count (1 for the unconditional clock-TMS command, plus the full bytes,
plus one for the partial-bits command when `bits - 1 ≥ 1`, plus one for
the extra clock-TMS command when pausing), then the flags. -/
def mkRwEntry (dataLen bits : Nat) (pause : Bool) : MEntry :=
  ((dataLen - 1) * 8 + bits,
    1 + (if 1 < dataLen then dataLen - 1 else 0) + (if 1 ≤ bits - 1 then 1 else 0) +
      (if pause then 1 else 0),
    true, pause)

/-- `Mpsse::queue_read_write` bookkeeping: aborts unless `bits ∈ [1,8]`,
reports failure (modelled as `none`) when the queued response bytes
would reach 4096, else yields the entry it pushes. -/
def mQueueReadWrite (dataLen bits : Nat) (pause : Bool) : Option MEntry :=
  if bits ≤ 8 ∧ bits ≠ 0 then
    if entryBytes (mkRwEntry dataLen bits pause) < 4096 then
      some (mkRwEntry dataLen bits pause)
    else none
  else none

/-- `Mpsse::read_write_data(data, bits, pause)` with adapter response
`r`: it queues on an (asserted) empty queue and immediately finishes the
single entry. -/
def mSyncReadWriteData (dataLen bits : Nat) (pause : Bool) (r : List Nat) : Option (List Nat) :=
  match mQueueReadWrite dataLen bits pause with
  | none => none
  | some e => some ((drainFrom [(e, r)] []).getD 0 [])

/-! ## Chain auto-detection (taps.rs, Taps::detect, IR-length phase) -/

/-- The IR-length loop of `Taps::detect` on a list of sampled TDO bits:
on a 1 bit, record `count + 1` when `count > 0`, terminate when
`count = 0`, else zero the counter; on a 0 bit, increment the counter
(which starts at -1).  `none` means the sample list ran out before the
loop terminated. -/
def detectLoop : List Bool → Int → List Int → Option (List Int)
  | [], _, _ => none
  | b :: rest, count, acc =>
    if b then
      if count = 0 then some acc
      else detectLoop rest 0 (if count > 0 then acc ++ [count + 1] else acc)
    else detectLoop rest (count + 1) acc

/-- The IR lengths `detect` stores: the recorded list, reversed. -/
def detectIrLens (stream : List Bool) : Option (List Int) :=
  (detectLoop stream (-1) []).map List.reverse

/-! ## Taps DR reads (taps.rs)

The cable is abstracted by its contract: consecutive reads return
consecutive windows of the TDO bit stream `s`, starting at cursor `c`. -/

/-- `m` TDO bits starting at stream position `c`. -/
def streamWindow (s : Nat → Bool) (c m : Nat) : List Bool :=
  (List.range m).map (fun i => s (c + i))

/-- `Taps::read_dr(bits)` for a chain of `n` taps with active index `k`:
discard `n - k - 1` bypass bits (when non-zero), then read `bits` bits.
Returns the value and the new stream cursor. -/
def tapsReadDr (n k bits : Nat) (s : Nat → Bool) (c : Nat) : List Bool × Nat :=
  let pad := n - k - 1
  let c1 := if 0 < pad then c + pad else c
  (streamWindow s c1 bits, c1 + bits)

/-- The bit counts `Taps::queue_dr_read(bits)` queues on the cable: the
discarded `n - k - 1`-bit read (when non-zero) and then one read of
`k + bits` bits. -/
def tapsQueueCounts (n k bits : Nat) : List Nat :=
  (if 0 < n - k - 1 then [n - k - 1] else []) ++ [k + bits]

/-- `Taps::finish_dr_read(bits)`: finish (and drop) the discarded read,
then return the whole `k + bits`-bit read. -/
def tapsFinishDrRead (n k bits : Nat) (s : Nat → Bool) (c : Nat) : List Bool :=
  let pad := n - k - 1
  let c1 := if 0 < pad then c + pad else c
  streamWindow s c1 (k + bits)

/-! ## List and bit helper lemmas -/

theorem setLastOr_length (v : Nat) (xs : List Nat) :
    (setLastOr v xs).length = xs.length := by
  induction xs with
  | nil => rfl
  | cons a tail ih =>
    cases tail with
    | nil => rfl
    | cons b rest => simpa [setLastOr] using ih

theorem getD_setLastOr_lt (v : Nat) (xs : List Nat) (i : Nat) (h : i + 1 < xs.length)
    (d : Nat) : (setLastOr v xs).getD i d = xs.getD i d := by
  induction xs generalizing i with
  | nil => simp at h
  | cons a tail ih =>
    cases tail with
    | nil => simp at h
    | cons b rest =>
      cases i with
      | zero => rfl
      | succ j =>
        show (setLastOr v (b :: rest)).getD j d = (b :: rest).getD j d
        exact ih j (by simpa using h)

theorem getD_setLastOr_last (v : Nat) (xs : List Nat) (h : xs ≠ []) (d : Nat) :
    (setLastOr v xs).getD (xs.length - 1) d = xs.getD (xs.length - 1) d ||| v := by
  induction xs with
  | nil => exact absurd rfl h
  | cons a tail ih =>
    cases tail with
    | nil => rfl
    | cons b rest =>
      show (setLastOr v (b :: rest)).getD ((b :: rest).length - 1) d =
        (b :: rest).getD ((b :: rest).length - 1) d ||| v
      exact ih (by simp)

theorem getD_replicate_self (n i a d : Nat) (h : i < n) :
    (List.replicate n a).getD i d = a := by
  rw [List.getD_eq_getElem _ _ (by simpa using h)]
  exact List.getElem_replicate _ _

theorem testBit_notTop (r j : Nat) (hr : r < 8) (hj : j < 8) :
    ((255 : Nat) ^^^ ((1 <<< r) - 1)).testBit j = decide (r ≤ j) := by
  have hall : ∀ r' < 8, ∀ j' < 8,
      ((255 : Nat) ^^^ ((1 <<< r') - 1)).testBit j' = decide (r' ≤ j') := by decide
  exact hall r hr j hj

theorem testBit_255 (j : Nat) (hj : j < 8) : (255 : Nat).testBit j = true := by
  have hall : ∀ j' < 8, (255 : Nat).testBit j' = true := by decide
  exact hall j hj

theorem testBit_onesMask (m j : Nat) (hm : m ≤ 8) (hj : j < 8) :
    ((1 <<< m) - 1 : Nat).testBit j = decide (j < m) := by
  have hall : ∀ m' ≤ 8, ∀ j' < 8,
      ((1 <<< m') - 1 : Nat).testBit j' = decide (j' < m') := by decide
  exact hall m hm j hj

/-! ## Properties of `add_ones_to_end` and `write_ir` -/

/-- Bits below `this_len` of the helper's output are the payload's bits,
provided `this_len` is not a multiple of 8 (see C4 for that case). -/
theorem addOnes_bit_low (ir : List Nat) (tl pre i : Nat)
    (hlen : ir.length = (tl + 7) / 8) (hpos : 1 ≤ tl) (hmod : tl % 8 ≠ 0)
    (hi : i < tl) : bufBit (addOnesToEnd ir tl pre) i = bufBit ir i := by
  have h8 : (0 : Nat) < 8 := by norm_num
  have hdiv : i / 8 < ir.length := by
    rw [Nat.div_lt_iff_lt_mul h8]
    omega
  unfold addOnesToEnd bufBit
  rw [List.getD_append _ _ _ _ (by rw [setLastOr_length]; exact hdiv)]
  rcases Nat.lt_or_ge (i / 8) (ir.length - 1) with hlt | hge
  · rw [getD_setLastOr_lt _ _ _ (by omega)]
  · have heq : i / 8 = ir.length - 1 := by omega
    have hne : ir ≠ [] := by
      intro hnil
      rw [hnil] at hlen
      simp at hlen
      omega
    rw [heq, getD_setLastOr_last _ _ hne, Nat.testBit_or,
      testBit_notTop _ _ (Nat.mod_lt _ h8) (Nat.mod_lt _ h8)]
    have hjlt : i % 8 < tl % 8 := by omega
    simp [Nat.not_le.mpr hjlt]

/-- Bits from `this_len` up to the capacity of the helper's output are
all ones. -/
theorem addOnes_bit_high (ir : List Nat) (tl pre i : Nat)
    (hlen : ir.length = (tl + 7) / 8) (hpos : 1 ≤ tl) (hmod : tl % 8 ≠ 0)
    (hge : tl ≤ i) (hlt : i < 8 * (ir.length + pre / 8)) :
    bufBit (addOnesToEnd ir tl pre) i = true := by
  have h8 : (0 : Nat) < 8 := by norm_num
  have hne : ir ≠ [] := by
    intro hnil
    rw [hnil] at hlen
    simp at hlen
    omega
  unfold addOnesToEnd bufBit
  rcases Nat.lt_or_ge (i / 8) ir.length with hlo | hhi
  · rw [List.getD_append _ _ _ _ (by rw [setLastOr_length]; exact hlo)]
    have heq : i / 8 = ir.length - 1 := by omega
    rw [heq, getD_setLastOr_last _ _ hne, Nat.testBit_or,
      testBit_notTop _ _ (Nat.mod_lt _ h8) (Nat.mod_lt _ h8)]
    have hjge : tl % 8 ≤ i % 8 := by omega
    simp [hjge]
  · rw [List.getD_append_right _ _ _ _ (by rw [setLastOr_length]; exact hhi)]
    rw [setLastOr_length]
    rw [getD_replicate_self _ _ _ _ (by omega)]
    exact testBit_255 _ (Nat.mod_lt _ h8)

/-- The bit count `write_ir` passes to the cable for the padded buffer
equals payload length plus pre-active pad, provided the partial pad bits
fit in the capacity the helper actually allocates. -/
theorem addOnes_stream_len (ir : List Nat) (tl pre : Nat)
    (hlen : ir.length = (tl + 7) / 8) (hpos : 1 ≤ tl) (hmod : tl % 8 ≠ 0)
    (hfit : tl % 8 + pre % 8 ≤ 8) :
    ((addOnesToEnd ir tl pre).length - 1) * 8 +
      (if (pre + tl) % 8 = 0 then 8 else (pre + tl) % 8) = tl + pre := by
  have hl : (addOnesToEnd ir tl pre).length = ir.length + pre / 8 := by
    unfold addOnesToEnd
    rw [List.length_append, setLastOr_length, List.length_replicate]
  rw [hl]
  split <;> omega

/-- The TDI stream of the `write_reg` call inside `write_ir`: the
payload's `this_len` bits followed by `pre` one bits. -/
theorem addOnes_writeStream (ir : List Nat) (tl pre : Nat)
    (hlen : ir.length = (tl + 7) / 8) (hpos : 1 ≤ tl) (hmod : tl % 8 ≠ 0)
    (hfit : tl % 8 + pre % 8 ≤ 8) :
    writeStream (addOnesToEnd ir tl pre)
        (if (pre + tl) % 8 = 0 then 8 else (pre + tl) % 8) =
      (List.range tl).map (bufBit ir) ++ List.replicate pre true := by
  unfold writeStream
  rw [addOnes_stream_len ir tl pre hlen hpos hmod hfit]
  apply List.ext_getElem
  · simp
  · intro i h1 h2
    rw [List.getElem_map, List.getElem_range]
    rcases Nat.lt_or_ge i tl with hlt | hge
    · rw [List.getElem_append_left (by simpa using hlt)]
      rw [List.getElem_map, List.getElem_range]
      exact addOnes_bit_low ir tl pre i hlen hpos hmod hlt
    · rw [List.getElem_append_right (by simpa using hge)]
      rw [List.getElem_replicate]
      have hi : i < tl + pre := by simpa using h1
      exact addOnes_bit_high ir tl pre i hlen hpos hmod hge (by omega)

theorem writeStream_ff (k : Nat) (hk : 0 < k) :
    writeStream (List.replicate k 255) 8 = List.replicate (8 * k) true := by
  unfold writeStream
  rw [List.length_replicate]
  have hlen : (k - 1) * 8 + 8 = 8 * k := by omega
  rw [hlen]
  apply List.eq_replicate_iff.mpr
  refine ⟨by simp, ?_⟩
  intro b hb
  rw [List.mem_map] at hb
  obtain ⟨i, hi, rfl⟩ := hb
  rw [List.mem_range] at hi
  unfold bufBit
  rw [getD_replicate_self _ _ _ _ (by omega)]
  exact testBit_255 _ (Nat.mod_lt _ (by norm_num))

theorem writeStream_mask (m : Nat) (hm : 0 < m) (hm8 : m < 8) :
    writeStream [(1 <<< m) - 1] m = List.replicate m true := by
  unfold writeStream
  have hlen : (([(1 <<< m) - 1] : List Nat).length - 1) * 8 + m = m := by simp
  rw [hlen]
  apply List.eq_replicate_iff.mpr
  refine ⟨by simp, ?_⟩
  intro b hb
  rw [List.mem_map] at hb
  obtain ⟨i, hi, rfl⟩ := hb
  rw [List.mem_range] at hi
  unfold bufBit
  have hi8 : i / 8 = 0 := by omega
  rw [hi8]
  show ((1 <<< m) - 1 : Nat).testBit (i % 8) = true
  rw [testBit_onesMask m (i % 8) (by omega) (by omega)]
  simp
  omega

/-- `write_ones(n)` clocks exactly `n` one bits. -/
theorem writeOnes_eq_replicate (n : Nat) : writeOnesStream n = List.replicate n true := by
  unfold writeOnesStream
  by_cases h1 : 0 < n / 8 <;> by_cases h2 : 0 < n % 8
  · rw [if_pos h1, if_pos h2, writeStream_ff _ h1, writeStream_mask _ h2 (by omega)]
    rw [← List.replicate_add]
    have : 8 * (n / 8) + n % 8 = n := by omega
    rw [this]
  · rw [if_pos h1, if_neg (by omega), writeStream_ff _ h1, List.append_nil]
    have : 8 * (n / 8) = n := by omega
    rw [this]
  · rw [if_neg (by omega), if_pos h2, writeStream_mask _ h2 (by omega), List.nil_append]
    have : n % 8 = n := by omega
    rw [this]
  · have : n = 0 := by omega
    subst this
    rfl

/-- With pre-active pad 4 and a five-bit payload the helper allocates no
extra byte and `write_ir` passes `(4 + 5) % 8 = 1` as the valid-bit
count, so only one of the nine required bits is clocked: the no-overflow
hypothesis of the padding theorem is genuinely needed. -/
theorem writeIr_truncation_note : (writeIrStream [4, 5] 1 [31]).length = 1 := by decide

/-! ## Claim C1 -/

/-- Claim C1: refuted as stated.  `get_path` never compares the two
initial one-step paths against the target, so for SelectDR (2) →
CaptureDR (3), whose shortest TMS sequence is the single bit [0], it
emits the five-bit detour [0,1,1,1,0] (which does end at CaptureDR).
The emitted sequence is therefore not of minimal length, contradicting
the claim and the module's own "most efficient path" documentation. -/
theorem c1_shortest_path_bug :
    getPathSM 2 3 = some [0, 1, 1, 1, 0] ∧
    applyTms 2 [0, 1, 1, 1, 0] = 3 ∧
    applyTms 2 [0] = 3 ∧ ([0, 1, 1, 1, 0] : List Nat).length = 5 := by
  decide

/-! ## Claim C3 -/

/-- Claim C3: refuted as stated.  `JtagSM::new` and `mode_reset` clock
TMS [1,1,1,1,1,0] — five highs force Reset from any state and the final
low then moves the hardware to Idle (1) — yet the driver records Reset
(0).  Simulating the emitted TMS bits from any start state (here 4,
ShiftDR) leaves the recorded and physical states different as soon as
construction (and again `mode_reset`) returns. -/
theorem c3_mode_reset_desync :
    smRun 4 [] = (0, 1) ∧ smRun 4 [SmOp.modeReset] = (0, 1) ∧ (0 : Nat) ≠ 1 := by
  decide

/-! ## Claim C4 -/

/-- Claim C4: refuted by the code when `this_len` is a multiple of 8.
`add_ones_to_end([0x88], 8, 0)` computes `top_bits = (1 << 0) - 1 = 0`
and ORs `!0 = 0xFF` into the last payload byte, clobbering all eight
declared-valid payload bits: bit 0 of the payload is 0 but bit 0 of the
output is 1. -/
theorem c4_mask_bug :
    addOnesToEnd [136] 8 0 = [255] ∧
    bufBit [136] 0 = false ∧ bufBit (addOnesToEnd [136] 8 0) 0 = true := by
  decide

/-! ## Claim C5 -/

/-- Claim C5: refuted by the GPIO back-end.  For the one-byte buffer
[0x01] with one valid bit, the LSB-first contract stream (`writeStream`,
which the MPSSE back-end follows) drives a single 1 bit, but
`Gpio::read_write_data` extracts TDI as `(d >> (7 - b)) & 1`, so it
drives bit 7 of the byte — a 0 — first. -/
theorem c5_bit_order_bug :
    gpioTdiBits [1] 1 false = [false] ∧ writeStream [1] 1 = [true] := by
  decide

/-! ## Claim C6 -/

/-- Claim C6: refuted by the GPIO back-end.  With every TDO sample high,
`Gpio::read_data(8)` pushes the completed byte inside the loop and then
unconditionally pushes the accumulator again, returning two bytes where
`ceil(8/8) = 1` byte was promised, with ones at bit positions 8 and
above. -/
theorem c6_read_data_bug :
    gpioReadData (fun _ => true) 8 = [255, 255] ∧
    (8 + 7) / 8 = 1 ∧ bufBit (gpioReadData (fun _ => true) 8) 8 = true := by
  decide

/-! ## Claim C7 -/

/-- Claim C7: counterexample.  On a sampled stream beginning
[0,1,0,0,0,1] the counter (started at -1) reaches 0 on the single
leading zero, so the first 1 bit satisfies `count == 0` and terminates
the loop immediately: the result is [] — not [4] as the claim states. -/
theorem c7_detect_counterexample :
    detectIrLens [false, true, false, false, false, true] = some [] ∧
    detectIrLens [false, true, false, false, false, true] ≠ some [4] := by
  decide

/-- Claim C7, amended: the -1 initial counter absorbs a leading 1 bit
(the capture bit the standard mandates), not a leading zero-run.  On a
stream beginning [1,0,0,0,1,1] the run 0,0,0 followed by a 1 records IR
length 4 and the immediately following 1 terminates, giving [4]; on a
stream beginning [0,1] the loop terminates immediately with no IR length
recorded. -/
theorem c7_detect_amended :
    detectIrLens [true, false, false, false, true, true] = some [4] ∧
    detectIrLens [false, true, false, false, false, true] = some [] := by
  decide

/-! ## Claim C2, counterexample -/

/-- Claim C2: counterexample to the stated layout.  For payload [0x00]
(four valid bits) and pre-active pad count 8, the claim says the first
8 bits of the helper's buffer are ones and the payload begins at bit 8;
the code instead returns [0xF0, 0xFF] — payload first, pad ones
appended — so bit 0 of the buffer is 0, not 1. -/
theorem c2_pad_order_counterexample :
    addOnesToEnd [0] 4 8 = [240, 255] ∧
    bufBit (addOnesToEnd [0] 4 8) 0 = false := by
  decide

/-! ## Claim C2, amended -/

/-- Claim C2, amended: for a chain with IR lengths `irlens` and active
index k, `write_ir` emits exactly `sum(irlens[k+1:])` one bits first
(the BYPASS instructions of the downstream devices); the payload then
follows *immediately*, at overall bit offset `sum(irlens[k+1:])`, and
the `sum(irlens[0:k])` pad ones for the devices before the active one
are clocked *after* the payload, not before it — in the helper's buffer
the payload occupies the first `this_len` bits and the pad ones sit
above it.  This requires `this_len` not to be a multiple of 8 (else the
helper clobbers the last payload byte, claim C4) and the pad to fit the
allocated capacity, `this_len % 8 + pre % 8 ≤ 8` (else the write is
truncated, see `writeIr_truncation_note`). -/
theorem c2_write_ir_emission (irlens : List Nat) (k : Nat) (ir : List Nat)
    (hk : k < irlens.length)
    (hlen : ir.length = (irlens.getD k 0 + 7) / 8)
    (hpos : 1 ≤ irlens.getD k 0)
    (hmod : irlens.getD k 0 % 8 ≠ 0)
    (hfit : irlens.getD k 0 % 8 + (irlens.take k).sum % 8 ≤ 8) :
    writeIrStream irlens k ir =
      List.replicate ((irlens.drop (k + 1)).sum) true ++
        (List.range (irlens.getD k 0)).map (bufBit ir) ++
        List.replicate ((irlens.take k).sum) true := by
  unfold writeIrStream
  rw [writeOnes_eq_replicate,
    addOnes_writeStream ir _ _ hlen hpos hmod (by omega), List.append_assoc]

/-- Claim C2 witness: chain [4, 5], active index 0, payload 0x0E — the
wire sees five ones (the BYPASS IR of device 1) followed by the four
payload bits 0,1,1,1 and an empty pre-pad. -/
theorem c2_write_ir_emission_witness :
    writeIrStream [4, 5] 0 [14] =
      List.replicate (([4, 5].drop (0 + 1)).sum) true ++
        (List.range ([4, 5].getD 0 0)).map (bufBit [14]) ++
        List.replicate (([4, 5].take 0).sum) true :=
  c2_write_ir_emission [4, 5] 0 [14] (by decide) (by decide) (by decide) (by decide)
    (by decide)

/-! ## Claim C9, counterexample -/

/-- Claim C9: counterexample.  `Gpio::read_write_data` clamps an
out-of-range `bits_in_last_byte` with `bits.max(1).min(8)` instead of
aborting: called with bits = 0 it silently behaves exactly like
bits = 1 and drives one TDI bit. -/
theorem c9_clamp_counterexample :
    gpioTdiBits [255] 0 false = gpioTdiBits [255] 1 false ∧
    (gpioTdiBits [255] 0 false).length = 1 := by
  decide

/-! ## Claim C10, counterexample -/

/-- Claim C10: counterexample to the stated bit order.  Chain of n = 3
taps, active k = 1, bits = 2, TDO stream F,T,T,F,…: `finish_dr_read`
returns [T,T,F] — it *begins* with the two bits `read_dr` would return
([T,T]) and *ends* with the k = 1 bypass bit, whereas the claim says the
k pad bits come first (which would make the last two bits equal
`read_dr`'s result; they do not). -/
theorem c10_pad_position_counterexample :
    tapsFinishDrRead 3 1 2 (fun i => decide (i = 1 ∨ i = 2)) 0 = [true, true, false] ∧
    (tapsFinishDrRead 3 1 2 (fun i => decide (i = 1 ∨ i = 2)) 0).take 2 =
      (tapsReadDr 3 1 2 (fun i => decide (i = 1 ∨ i = 2)) 0).1 ∧
    (tapsFinishDrRead 3 1 2 (fun i => decide (i = 1 ∨ i = 2)) 0).drop 1 ≠
      (tapsReadDr 3 1 2 (fun i => decide (i = 1 ∨ i = 2)) 0).1 := by
  decide

/-! ## Claim C10, amended -/

theorem streamWindow_split (s : Nat → Bool) (c a b : Nat) :
    streamWindow s c (a + b) = streamWindow s c a ++ streamWindow s (c + a) b := by
  unfold streamWindow
  rw [List.range_add, List.map_append, List.map_map]
  congr 1
  apply List.map_congr_left
  intro i _
  simp [Nat.add_assoc]

/-- Claim C10, amended: for a chain of n taps with active index k,
`queue_dr_read(bits)` queues (after the discarded read of n-k-1 bits) a
cable read of k + bits bits, and `finish_dr_read(bits)` returns that
entire k + bits-bit buffer; the buffer *begins* with the bits bits the
synchronous `read_dr(bits)` would return (the active device's register)
and *ends* with the k bypass pad bits of the lower-numbered devices,
rather than beginning with them. -/
theorem c10_finish_dr_read_layout (n k bits : Nat) (s : Nat → Bool) (c : Nat)
    (h : k < n) :
    tapsFinishDrRead n k bits s c =
      (tapsReadDr n k bits s c).1 ++
        streamWindow s ((if 0 < n - k - 1 then c + (n - k - 1) else c) + bits) k ∧
    (tapsFinishDrRead n k bits s c).length = k + bits ∧
    tapsQueueCounts n k bits =
      (if 0 < n - k - 1 then [n - k - 1] else []) ++ [k + bits] := by
  refine ⟨?_, ?_, rfl⟩
  · show streamWindow s _ (k + bits) = _
    rw [Nat.add_comm k bits, streamWindow_split]
    rfl
  · simp [tapsFinishDrRead, streamWindow]

/-- Claim C10 witness: the amended statement evaluated on the concrete
chain n = 3, k = 1, bits = 2 of the counterexample. -/
theorem c10_finish_dr_read_layout_witness :
    tapsFinishDrRead 3 1 2 (fun i => decide (1 ≤ i ∧ i ≤ 2)) 0 =
      (tapsReadDr 3 1 2 (fun i => decide (1 ≤ i ∧ i ≤ 2)) 0).1 ++
        streamWindow (fun i => decide (1 ≤ i ∧ i ≤ 2))
          ((if 0 < 3 - 1 - 1 then 0 + (3 - 1 - 1) else 0) + 2) 1 ∧
    (tapsFinishDrRead 3 1 2 (fun i => decide (1 ≤ i ∧ i ≤ 2)) 0).length = 1 + 2 ∧
    tapsQueueCounts 3 1 2 = (if 0 < 3 - 1 - 1 then [3 - 1 - 1] else []) ++ [1 + 2] :=
  c10_finish_dr_read_layout 3 1 2 (fun i => decide (1 ≤ i ∧ i ≤ 2)) 0 (by decide)

/-! ## Claim C9, amended -/

/-- Claim C9, amended: only the MPSSE back-end aborts on a
`bits_in_last_byte` outside [1,8]; the GPIO back-end does not fail at
all but silently clamps the argument into [1,8] with
`bits.max(1).min(8)`, so 0 behaves as 1 and 9 behaves as 8. -/
theorem c9_out_of_range_bits (data : List Nat) (bits : Nat) (pause : Bool)
    (h : bits = 0 ∨ 8 < bits) :
    mpsseWriteTdi data bits pause = none ∧
    gpioTdiBits data bits pause = gpioTdiBits data (min (max bits 1) 8) pause := by
  constructor
  · have hnot : ¬(bits ≤ 8 ∧ bits ≠ 0) := by omega
    simp only [mpsseWriteTdi, if_neg hnot]
  · show _ = gpioTdiBits data (min (max bits 1) 8) pause
    unfold gpioTdiBits
    have hmm : min (max (min (max bits 1) 8) 1) 8 = min (max bits 1) 8 := by omega
    rw [hmm]

/-- Claim C9 witness: the amended statement at bits = 9. -/
theorem c9_out_of_range_bits_witness :
    mpsseWriteTdi [255] 9 false = none ∧
    gpioTdiBits [255] 9 false = gpioTdiBits [255] (min (max 9 1) 8) false :=
  c9_out_of_range_bits [255] 9 false (Or.inr (by decide))

/-! ## Claim C8 -/

/-- Draining a FIFO-consistent queue returns, entry by entry, exactly
the post-processing of each entry's own response bytes. -/
theorem drain_eq_map (pairs : List (MEntry × List Nat)) (pending : List Nat)
    (hlen : ∀ p ∈ pairs, p.2.length = entryBytes p.1)
    (hp : pending = [] ∨ pending = respFlat pairs) :
    drainFrom pairs pending = pairs.map (fun p => unpackFinish p.1 p.2) := by
  induction pairs generalizing pending with
  | nil => rfl
  | cons p rest ih =>
    have hhead : p.2.length = entryBytes p.1 := hlen p (by simp)
    have hrest : ∀ q ∈ rest, q.2.length = entryBytes q.1 := by
      intro q hq
      exact hlen q (by simp [hq])
    have hp1 : (if pending.isEmpty then respFlat (p :: rest) else pending) =
        respFlat (p :: rest) := by
      rcases hp with rfl | rfl
      · simp
      · by_cases he : (respFlat (p :: rest)).isEmpty <;> simp [he]
    calc drainFrom (p :: rest) pending
        = unpackFinish p.1
            ((if pending.isEmpty then respFlat (p :: rest) else pending).take
              (entryBytes p.1)) ::
          drainFrom rest
            ((if pending.isEmpty then respFlat (p :: rest) else pending).drop
              (entryBytes p.1)) := rfl
      _ = unpackFinish p.1 ((p.2 ++ respFlat rest).take (entryBytes p.1)) ::
          drainFrom rest ((p.2 ++ respFlat rest).drop (entryBytes p.1)) := by rw [hp1]; rfl
      _ = unpackFinish p.1 p.2 :: drainFrom rest (respFlat rest) := by
          rw [← hhead, List.take_left, List.drop_left]
      _ = unpackFinish p.1 p.2 :: rest.map (fun q => unpackFinish q.1 q.2) := by
          rw [ih (respFlat rest) hrest (Or.inr rfl)]
      _ = _ := rfl

/-- Claim C8: confirmed.  A successful `queue_read_write(data, bits,
pause_after)` whose entry sits at any FIFO position (arbitrary earlier
`pre` and later `post` queued reads), finished with the matching bit
count, returns exactly the value a synchronous `read_write_data` would
return for the same adapter response bytes `r`.  Responses are modelled
per entry (the "same point" of the claim: the adapter returns the same
TDO bytes), with the adapter guarantee that each entry receives its
recorded number of response bytes. -/
theorem c8_queue_sync_equiv (pre post : List (MEntry × List Nat))
    (dataLen bits : Nat) (pause : Bool) (r : List Nat) (e : MEntry)
    (hq : mQueueReadWrite dataLen bits pause = some e)
    (hlen : ∀ p ∈ pre ++ (e, r) :: post, p.2.length = entryBytes p.1) :
    (drainFrom (pre ++ (e, r) :: post) []).getD pre.length [] =
      (mSyncReadWriteData dataLen bits pause r).getD [] := by
  have hdrain := drain_eq_map (pre ++ (e, r) :: post) [] hlen (Or.inl rfl)
  rw [hdrain, List.map_append]
  rw [List.getD_append_right _ _ _ _ (by simp)]
  simp only [List.length_map, Nat.sub_self, List.map_cons]
  have hsingle := drain_eq_map [(e, r)] []
    (by
      intro p hp
      simp only [List.mem_singleton] at hp
      subst hp
      exact hlen (e, r) (by simp))
    (Or.inl rfl)
  simp only [mSyncReadWriteData, hq, hsingle]
  rfl

/-- Claim C8 witness: a queue holding one plain read entry followed by
the entry of `queue_read_write` on a one-byte buffer with 8 valid bits,
drained in FIFO order; position 1 returns what the synchronous call
returns on response bytes [7, 200]. -/
theorem c8_queue_sync_equiv_witness :
    (drainFrom [((4, 1, false, false), [9]), ((8, 2, true, false), [7, 200])] []).getD 1 [] =
      (mSyncReadWriteData 1 8 false [7, 200]).getD [] :=
  c8_queue_sync_equiv [((4, 1, false, false), [9])] [] 1 8 false [7, 200]
    (8, 2, true, false) (by decide) (by decide)

end Jtag
